import Mathlib

set_option maxRecDepth 8000

/-!
Verification of the MCP-UI bridge of this repository (detector, resource
store, sandbox host, height negotiator, message handling), shallowly
embedded from:

* `client/src/components/Chat/Messages/Content/MCPUIDetector.tsx`
* `client/src/Providers/MCPResourceContext.tsx`
* `client/src/components/Chat/Messages/Content/ToolCallInfo.tsx`
* `client/src/components/MCP/MCPUIResourceRenderer.tsx`

JavaScript values flowing through `JSON.parse` are modelled by the `Json`
inductive below; machine floats are modelled by `ℚ` (all heights in the
claims are finite decimal numbers).
-/

/-- A parsed JSON value, as produced by `JSON.parse`.  `undefined` is
represented by `Option.none` at use sites; `null` is `Json.null`. -/
inductive Json where
  | null : Json
  | bool (b : Bool) : Json
  | num (q : ℚ) : Json
  | str (s : String) : Json
  | arr (elems : List Json) : Json
  | obj (fields : List (String × Json)) : Json

/-- Property access `v?.k` on a JSON value: `none` models `undefined`
(non-object receiver or absent key). -/
def jsGet : Json → String → Option Json
  | Json.obj fields, k => (fields.find? (fun p => p.1 == k)).map (fun p => p.2)
  | _, _ => none

/-- JavaScript truthiness of a JSON value (`!v` / `if (v)`). -/
def jsTruthy : Json → Bool
  | Json.null => false
  | Json.bool b => b
  | Json.num q => decide (q ≠ 0)
  | Json.str s => decide (s ≠ "")
  | Json.arr _ => true
  | Json.obj _ => true

/-- `a ?? b` skips `null` and `undefined`: collapse a present `null` to
`none` so that `Option.getD`/`Option.orElse` implement `??`. -/
def jsCoalesce : Option Json → Option Json
  | some Json.null => none
  | o => o

/-- `String.prototype.startsWith` (on code points). -/
def strStartsWith (s pre : String) : Bool :=
  pre.data.isPrefixOf s.data

/-! ### JSON.parse

A executable model of `JSON.parse` (ECMA-404 grammar: literals, strings
with escapes, numbers with fraction/exponent, arrays, objects; trailing
garbage rejected).  Arrays and objects recurse through a fuel parameter;
`JSON.parse` supplies `length + 1` fuel, enough for every well-formed
input since each nesting level consumes at least two characters. -/

/-- Skip JSON whitespace. -/
def skipWs : List Char → List Char
  | [] => []
  | c :: rest =>
    if c = ' ' ∨ c = '\t' ∨ c = '\n' ∨ c = '\r' then skipWs rest else c :: rest

/-- Value of a hexadecimal digit, if any. -/
def hexVal? (c : Char) : Option Nat :=
  if '0' ≤ c ∧ c ≤ '9' then some (c.toNat - '0'.toNat)
  else if 'a' ≤ c ∧ c ≤ 'f' then some (c.toNat - 'a'.toNat + 10)
  else if 'A' ≤ c ∧ c ≤ 'F' then some (c.toNat - 'A'.toNat + 10)
  else none

/-- Single-character string escapes of JSON. -/
def escChar? : Char → Option Char
  | '"' => some '"'
  | '\\' => some '\\'
  | '/' => some '/'
  | 'b' => some (Char.ofNat 8)
  | 'f' => some (Char.ofNat 12)
  | 'n' => some '\n'
  | 'r' => some '\r'
  | 't' => some '\t'
  | _ => none

/-- Parse the body of a JSON string after the opening quote; returns the
decoded characters and the remainder after the closing quote. -/
def parseStrBody : List Char → Option (List Char × List Char)
  | [] => none
  | '"' :: rest => some ([], rest)
  | '\\' :: 'u' :: a :: b :: c :: d :: rest =>
    (match hexVal? a, hexVal? b, hexVal? c, hexVal? d with
     | some ha, some hb, some hc, some hd =>
       (parseStrBody rest).map
         (fun p => (Char.ofNat (((ha * 16 + hb) * 16 + hc) * 16 + hd) :: p.1, p.2))
     | _, _, _, _ => none)
  | '\\' :: e :: rest =>
    (match escChar? e with
     | some c => (parseStrBody rest).map (fun p => (c :: p.1, p.2))
     | none => none)
  | c :: rest =>
    if c.toNat < 32 then none
    else (parseStrBody rest).map (fun p => (c :: p.1, p.2))

/-- Take a maximal run of decimal digits. -/
def takeDigits : List Char → List Char × List Char
  | [] => ([], [])
  | c :: rest =>
    if '0' ≤ c ∧ c ≤ '9' then
      let p := takeDigits rest
      (c :: p.1, p.2)
    else ([], c :: rest)

/-- Numeric value of a digit run. -/
def digitsVal (ds : List Char) : Nat :=
  ds.foldl (fun acc c => acc * 10 + (c.toNat - '0'.toNat)) 0

/-- Parse an optional fraction part `.digits`. -/
def parseFrac : List Char → Option (List Char × List Char)
  | '.' :: t =>
    (match takeDigits t with
     | ([], _) => none
     | (ds, r) => some (ds, r))
  | cs => some ([], cs)

/-- Parse an optional exponent part `[eE][+-]?digits`. -/
def parseExp : List Char → Option (Int × List Char)
  | [] => some (0, [])
  | c :: t =>
    if c = 'e' ∨ c = 'E' then
      let st : Int × List Char :=
        match t with
        | '+' :: u => (1, u)
        | '-' :: u => (-1, u)
        | _ => (1, t)
      match takeDigits st.2 with
      | ([], _) => none
      | (ds, r) => some (st.1 * (digitsVal ds : Int), r)
    else some (0, c :: t)

/-- Parse a JSON number (leading zeros rejected, as in `JSON.parse`). -/
def parseNum (cs : List Char) : Option (ℚ × List Char) :=
  let sg : Bool × List Char :=
    match cs with
    | '-' :: t => (true, t)
    | _ => (false, cs)
  match takeDigits sg.2 with
  | ([], _) => none
  | (ds, cs2) =>
    if 1 < ds.length ∧ ds.head? = some '0' then none
    else
      match parseFrac cs2 with
      | none => none
      | some (fds, cs3) =>
        match parseExp cs3 with
        | none => none
        | some (e, cs4) =>
          let mant : ℚ := (digitsVal ds : ℚ) + (digitsVal fds : ℚ) / (10 : ℚ) ^ fds.length
          let q0 : ℚ := mant * (10 : ℚ) ^ e
          some (if sg.1 then -q0 else q0, cs4)

/-- Object member assignment with `JSON.parse` duplicate-key policy:
the later value wins, the first occurrence keeps its position. -/
def objAssign : List (String × Json) → String → Json → List (String × Json)
  | [], k, v => [(k, v)]
  | (k', v') :: rest, k, v =>
    if k' = k then (k, v) :: rest else (k', v') :: objAssign rest k v

/-- Fold a parsed member list into an object field list. -/
def objOfMembers (ms : List (String × Json)) : List (String × Json) :=
  ms.foldl (fun acc kv => objAssign acc kv.1 kv.2) []

mutual

/-- Parse one JSON value; returns it with the unconsumed remainder. -/
def parseVal : Nat → List Char → Option (Json × List Char)
  | 0, _ => none
  | Nat.succ fuel, cs =>
    match skipWs cs with
    | 'n' :: 'u' :: 'l' :: 'l' :: rest => some (Json.null, rest)
    | 't' :: 'r' :: 'u' :: 'e' :: rest => some (Json.bool true, rest)
    | 'f' :: 'a' :: 'l' :: 's' :: 'e' :: rest => some (Json.bool false, rest)
    | '"' :: rest => (parseStrBody rest).map (fun p => (Json.str (String.mk p.1), p.2))
    | '[' :: rest =>
      (match skipWs rest with
       | ']' :: r2 => some (Json.arr [], r2)
       | cs2 => (parseElems fuel cs2).map (fun p => (Json.arr p.1, p.2)))
    | '\x7b' :: rest =>
      (match skipWs rest with
       | '\x7d' :: r2 => some (Json.obj [], r2)
       | cs2 => (parseMembers fuel cs2).map (fun p => (Json.obj (objOfMembers p.1), p.2)))
    | rest => (parseNum rest).map (fun p => (Json.num p.1, p.2))
termination_by structural fuel _ => fuel

/-- Parse the elements of a non-empty array up to `]`. -/
def parseElems : Nat → List Char → Option (List Json × List Char)
  | 0, _ => none
  | Nat.succ fuel, cs =>
    match parseVal fuel cs with
    | none => none
    | some (j, r) =>
      match skipWs r with
      | ',' :: r2 => (parseElems fuel r2).map (fun p => (j :: p.1, p.2))
      | ']' :: r2 => some ([j], r2)
      | _ => none
termination_by structural fuel _ => fuel

/-- Parse the members of a non-empty object up to the closing brace. -/
def parseMembers : Nat → List Char → Option (List (String × Json) × List Char)
  | 0, _ => none
  | Nat.succ fuel, cs =>
    match skipWs cs with
    | '"' :: r1 =>
      (match parseStrBody r1 with
       | none => none
       | some (kcs, r2) =>
         match skipWs r2 with
         | ':' :: r3 =>
           (match parseVal fuel r3 with
            | none => none
            | some (v, r4) =>
              match skipWs r4 with
              | ',' :: r5 => (parseMembers fuel r5).map (fun p => ((String.mk kcs, v) :: p.1, p.2))
              | '\x7d' :: r5 => some ([(String.mk kcs, v)], r5)
              | _ => none)
         | _ => none)
    | _ => none
termination_by structural fuel _ => fuel

end

/-- `JSON.parse`: parse a whole string, rejecting trailing garbage;
a parse failure (an exception in JavaScript) is `none`. -/
def JSON.parse (s : String) : Option Json :=
  match parseVal (s.length + 1) s.data with
  | some (j, rest) => if skipWs rest = [] then some j else none
  | none => none

/-! ### Resource Detector

`detectMCPUIResource` from `MCPUIDetector.tsx` (lines 6-50).  The result
object `\x7b isMCPResource, resource? \x7d` is modelled by `DetectResult`.  The
source's guard is

```
parsed?.type === 'resource' &&
parsed?.resource?.uri?.startsWith('ui://') &&
parsed?.resource?.mimeType === 'text/html' &&
parsed?.resource?.text
```

and on success the source returns `parsed.resource` itself.  When
`resource.uri` is a non-nullish non-string the JavaScript guard throws a
`TypeError` inside the surrounding `try`, which the `catch` turns into the
no-match result — observably the same as the guard failing, which is how
the model renders it. -/

/-- Return shape of `detectMCPUIResource`. -/
structure DetectResult where
  isMCPResource : Bool
  resource : Option Json

/-- `parsed?.type === 'resource'`. -/
def typeIsResource (parsed : Json) : Bool :=
  match jsGet parsed "type" with
  | some (Json.str t) => t == "resource"
  | _ => false

/-- `parsed?.resource?.uri?.startsWith('ui://')` (true only when `uri` is a
string with the reserved scheme; a throwing access is observably false). -/
def uriIsReserved (parsed : Json) : Bool :=
  match (jsGet parsed "resource").bind (fun r => jsGet r "uri") with
  | some (Json.str u) => strStartsWith u "ui://"
  | _ => false

/-- `parsed?.resource?.mimeType === 'text/html'`. -/
def mimeTypeIsHtml (parsed : Json) : Bool :=
  match (jsGet parsed "resource").bind (fun r => jsGet r "mimeType") with
  | some (Json.str m) => m == "text/html"
  | _ => false

/-- Truthiness of `parsed?.resource?.text`. -/
def textIsTruthy (parsed : Json) : Bool :=
  match (jsGet parsed "resource").bind (fun r => jsGet r "text") with
  | some t => jsTruthy t
  | none => false

/-- `detectMCPUIResource(output)`: `none` models a `null`/`undefined`
argument; the `!output` guard also rejects the empty string. -/
def detectMCPUIResource : Option String → DetectResult
  | none => ⟨false, none⟩
  | some output =>
    if output = "" then ⟨false, none⟩
    else
      match JSON.parse output with
      | none => ⟨false, none⟩
      | some parsed =>
        if typeIsResource parsed ∧ uriIsReserved parsed ∧
            mimeTypeIsHtml parsed ∧ textIsTruthy parsed then
          ⟨true, jsGet parsed "resource"⟩
        else ⟨false, none⟩

/-- JSON string-literal escaping, used to build wrapped-text envelopes
whose `text` field serializes an inner envelope. -/
def jsonEscapeChars : List Char → List Char
  | [] => []
  | '"' :: rest => '\\' :: '"' :: jsonEscapeChars rest
  | '\\' :: rest => '\\' :: '\\' :: jsonEscapeChars rest
  | c :: rest => c :: jsonEscapeChars rest

/-- Serialize a string as a JSON string literal. -/
def quoteJson (s : String) : String :=
  "\"" ++ String.mk (jsonEscapeChars s.data) ++ "\""

/-- The wrapped-text envelope carrying `s` as its `text` payload. -/
def wrapTextEnvelope (s : String) : String :=
  "\x7b\"type\":\"text\",\"text\":" ++ quoteJson s ++ "\x7d"

/-- The one-element content-array envelope containing `s`. -/
def wrapArrayEnvelope (s : String) : String :=
  "[" ++ s ++ "]"

/-- The direct envelope of the spec's concrete scenario (uri `ui://form/1`). -/
def directEnvelopeForm1 : String :=
  "\x7b\"type\":\"resource\",\"resource\":\x7b\"uri\":\"ui://form/1\",\"name\":\"Form\",\"mimeType\":\"text/html\",\"text\":\"<form></form>\"\x7d\x7d"

/-- The direct envelope of the spec's wrapped-text scenario (uri `ui://x/2`). -/
def directEnvelopeX2 : String :=
  "\x7b\"type\":\"resource\",\"resource\":\x7b\"uri\":\"ui://x/2\",\"name\":\"X\",\"mimeType\":\"text/html\",\"text\":\"<p>x</p>\"\x7d\x7d"

/-! ### Resource Store

`MCPResourceContext.tsx`: the store is a JavaScript `Map` keyed by `uri`;
`addResource` calls `newMap.set(resource.uri, resource)` unconditionally.
`ToolCallInfo.tsx` (lines 72-84) guards the call: it adds only when
`getResource(uri)` finds nothing. -/

/-- The `MCPResource` interface of `MCPResourceContext.tsx`. -/
structure MCPResource where
  uri : String
  name : String
  mimeType : String
  text : String
deriving DecidableEq

/-- The store's backing `Map`, as an insertion-ordered key-value list with
unique keys (the only mutation is `set`). -/
abbrev ResourceMap := List (String × MCPResource)

/-- `Map.prototype.set`: replace the value in place if the key exists,
append otherwise. -/
def mapSet : ResourceMap → String → MCPResource → ResourceMap
  | [], k, v => [(k, v)]
  | (k', v') :: rest, k, v =>
    if k' = k then (k, v) :: rest else (k', v') :: mapSet rest k v

/-- `Map.prototype.get`. -/
def mapGet : ResourceMap → String → Option MCPResource
  | [], _ => none
  | (k', v') :: rest, k => if k' = k then some v' else mapGet rest k

/-- `addResource` of `MCPResourceContext.tsx`. -/
def addResource (m : ResourceMap) (r : MCPResource) : ResourceMap :=
  mapSet m r.uri r

/-- `getResource` of `MCPResourceContext.tsx`. -/
def getResource (m : ResourceMap) (u : String) : Option MCPResource :=
  mapGet m u

/-- `clearResources` of `MCPResourceContext.tsx`. -/
def clearResources (_ : ResourceMap) : ResourceMap := []

/-- The storing effect of `ToolCallInfo.tsx`: `addResource` is called only
when `getResource(uri)` returns nothing. -/
def storeDetectedResource (m : ResourceMap) (r : MCPResource) : ResourceMap :=
  match getResource m r.uri with
  | some _ => m
  | none => addResource m r

/-! ### Sandbox Host and Height Negotiator

State of one `MCPUIResourceRenderer` render instance
(`MCPUIResourceRenderer.tsx`):

* `committed` — the `iframeHeight` React state (initially 150);
* `pending` — `pendingHeightRef.current`;
* `rafScheduled` — whether `rafRef.current` holds a scheduled frame;
* `isLoaded` — the `isLoaded` React state. -/

/-- Mutable state of one render instance. -/
structure HState where
  committed : ℚ
  pending : Option ℚ
  rafScheduled : Bool
  isLoaded : Bool
deriving DecidableEq

/-- `useState(150)` / `useState(false)`: the state at first mount. -/
def initialHState : HState :=
  { committed := 150, pending := none, rafScheduled := false, isLoaded := false }

/-- `applyHeight`: `next = Math.max(0, Math.ceil(h));
setIframeHeight(prev => (next > prev ? next : prev))`. -/
def applyHeight (prev h : ℚ) : ℚ :=
  let next : ℚ := ((max 0 ⌈h⌉ : ℤ) : ℚ)
  if next > prev then next else prev

/-- `scheduleHeightCommit`: fold the sample into the pending candidate by
`max` and make sure a frame callback is scheduled. -/
def scheduleHeightCommit (s : HState) (h : ℚ) : HState :=
  { s with pending := some (max (s.pending.getD 0) h), rafScheduled := true }

/-- The `requestAnimationFrame` callback scheduled by
`scheduleHeightCommit`: read and clear the pending candidate, apply it,
and mark the instance loaded. -/
def rafCommit (s : HState) : HState :=
  if s.rafScheduled then
    match s.pending with
    | some ph =>
      { committed := applyHeight s.committed ph, pending := none,
        rafScheduled := false, isLoaded := true }
    | none => { s with pending := none, rafScheduled := false }
  else s

/-- One interleaving step of the negotiator: a height sample arriving from
any source (probe message, resize observer, settle probe), or the frame
boundary at which the coalesced candidate commits. -/
inductive HEvent where
  | sample (h : ℚ) : HEvent
  | frame : HEvent

/-- Step function of the negotiator. -/
def hstep (s : HState) : HEvent → HState
  | HEvent.sample h => scheduleHeightCommit s h
  | HEvent.frame => rafCommit s

/-- Run a trace of events. -/
def hrun (s : HState) (es : List HEvent) : HState :=
  es.foldl hstep s

/-- Observe a batch of samples and commit at the next frame boundary. -/
def negotiate (s : HState) (l : List ℚ) : HState :=
  rafCommit (l.foldl scheduleHeightCommit s)

/-- The effect cleanup that runs when the `[resource]` dependency changes
or the component unmounts: it cancels the scheduled frame and clears the
pending candidate, and does not touch `iframeHeight` or `isLoaded`. -/
def effectCleanup (s : HState) : HState :=
  { s with pending := none, rafScheduled := false }

/-! ### Message handling

`handleMessage` of `MCPUIResourceRenderer.tsx` (lines 125-147).  A posting
`window` identity (`event.source`) is modelled by a `Nat`; the tracked
iframes' `contentWindow`s by a list of such identities. -/

/-- An inbound cross-context message. -/
structure UIMessage where
  source : Nat
  data : Json

/-- Height extraction:
`payload = event.data?.payload ?? event.data` followed by
`payload?.height ?? payload?.size?.height ?? payload?.innerHeight ??
payload?.contentHeight`, accepted only when the result is a (finite)
number. -/
def extractHeight (data : Json) : Option ℚ :=
  let payload := (jsCoalesce (jsGet data "payload")).getD data
  let raw :=
    (jsCoalesce (jsGet payload "height")).orElse (fun _ =>
      (jsCoalesce ((jsGet payload "size").bind (fun z => jsGet z "height"))).orElse (fun _ =>
        (jsCoalesce (jsGet payload "innerHeight")).orElse (fun _ =>
          jsCoalesce (jsGet payload "contentHeight"))))
  match raw with
  | some (Json.num q) => some q
  | _ => none

/-- The recognized height-report type aliases. -/
def isHeightUpdateType (t : String) : Bool :=
  t == "mcp-ui-height-update" || t == "ui-size-change" || t == "mcp-ui:size"

/-- `handleMessage`: drop the message when it does not come from a tracked
iframe **and** at least one iframe is tracked (`!fromIframe &&
iframes.length > 0`); then fold a height sample when the declared type is
one of the recognized aliases and a numeric height is found. -/
def handleMessage (tracked : List Nat) (s : HState) (m : UIMessage) : HState :=
  if ¬ tracked.contains m.source ∧ tracked ≠ [] then s
  else
    match jsGet m.data "type" with
    | some (Json.str t) =>
      if isHeightUpdateType t then
        match extractHeight m.data with
        | some q => scheduleHeightCommit s q
        | none => s
      else s
    | _ => s

/-! ### Probe-injection failure path

The `catch` branch of `attemptInjection` (`MCPUIResourceRenderer.tsx`
lines 287-296): on a cross-isolation read denial it computes
`resource?.height || resource?.metadata?.height || 600` and assigns it
with `setIframeHeight(fallbackHeight)` — a direct assignment, not routed
through `applyHeight`'s max-guard.  In the resource schema a declared
height is a number, so the fallback value is always numeric; the model
leaves the state unchanged in the (schema-violating) non-numeric case. -/

/-- `resource?.height || resource?.metadata?.height || 600` (JavaScript
`||` returns its first truthy operand, else the last operand). -/
def fallbackHeight (resource : Json) : Json :=
  let h1 := (jsGet resource "height").getD Json.null
  if jsTruthy h1 then h1
  else
    let h2 := ((jsGet resource "metadata").bind (fun md => jsGet md "height")).getD Json.null
    if jsTruthy h2 then h2 else Json.num 600

/-- The `catch` branch: silent recovery that assigns the fallback height
directly to `iframeHeight`; the instance is kept (nothing is torn down). -/
def attemptInjectionCatch (resource : Json) (s : HState) : HState :=
  match fallbackHeight resource with
  | Json.num q => { s with committed := q }
  | _ => s

/-! ### Mount-effect registrations and unmount cleanup

The mount effect of `MCPUIResourceRenderer.tsx` registers the handles
below; the returned cleanup (lines 361-380) releases only the first four.
The `setTimeout(..., 500)` delayed iframe check, the `settleProbe`
`requestAnimationFrame`/`setTimeout` chains, and the per-iframe `load`
listeners added by `injectHeightDetector` (whose returned remover is
discarded by every caller) are never released. -/

/-- Handles registered by the mount effect. -/
inductive Registration where
  | messageListener : Registration
  | wrapperMutationObserver : Registration
  | pendingRaf : Registration
  | iframeResizeObservers : Registration
  | iframeLoadListener : Registration
  | delayedIframeCheck : Registration
  | settleProbeTimers : Registration
deriving DecidableEq

/-- Everything the mount effect registers over its lifetime. -/
def mountRegistrations : List Registration :=
  [Registration.messageListener, Registration.wrapperMutationObserver,
   Registration.pendingRaf, Registration.iframeResizeObservers,
   Registration.iframeLoadListener, Registration.delayedIframeCheck,
   Registration.settleProbeTimers]

/-- What the effect cleanup releases: `removeEventListener('message')`,
`observer.disconnect()`, `cancelAnimationFrame(rafRef.current)`, and
disconnecting every `ResizeObserver` in `iframeObserversRef`. -/
def cleanupReleased : List Registration :=
  [Registration.messageListener, Registration.wrapperMutationObserver,
   Registration.pendingRaf, Registration.iframeResizeObservers]

/-- Handles still live after unmount. -/
def leakedAfterUnmount : List Registration :=
  mountRegistrations.filter (fun r => ¬ cleanupReleased.contains r)

/-! ## Helper lemmas -/

/-- The empty string does not parse. -/
lemma json_parse_empty : JSON.parse "" = none := rfl

/-- Unfolding `detectMCPUIResource` under a successful parse. -/
lemma detect_parse_some {s : String} {j : Json} (hp : JSON.parse s = some j) :
    detectMCPUIResource (some s) =
      if typeIsResource j ∧ uriIsReserved j ∧ mimeTypeIsHtml j ∧ textIsTruthy j then
        ⟨true, jsGet j "resource"⟩
      else ⟨false, none⟩ := by
  have hs : s ≠ "" := by
    intro h
    rw [h, json_parse_empty] at hp
    exact Option.noConfusion hp
  simp only [detectMCPUIResource, hp, if_neg hs]

/-- Unfolding `detectMCPUIResource` under a failed parse. -/
lemma detect_parse_none {s : String} (hp : JSON.parse s = none) :
    detectMCPUIResource (some s) = ⟨false, none⟩ := by
  by_cases hs : s = ""
  · rw [hs]; rfl
  · simp only [detectMCPUIResource, hp, if_neg hs]

/-! ## C2: direct envelopes are detected with byte-exact fields -/

/-- C2 (confirmed).  For every well-formed direct envelope — the raw
string parses as JSON whose top-level `type` is `"resource"`, whose
`resource.uri` is a string with the reserved `ui://` scheme, whose
`resource.mimeType` is the supported kind `text/html`, and whose
`resource.text` is a non-empty string — `detectMCPUIResource` reports a
match and returns the parsed `resource` object itself, so its `uri`,
`name`, `mimeType` and `text` fields are byte-exact copies of the
input's. -/
theorem detect_direct_envelope_byte_exact
    (s : String) (parsed r : Json) (u nm txt : String)
    (hp : JSON.parse s = some parsed)
    (hty : jsGet parsed "type" = some (Json.str "resource"))
    (hres : jsGet parsed "resource" = some r)
    (huri : jsGet r "uri" = some (Json.str u))
    (hscheme : strStartsWith u "ui://" = true)
    (hmime : jsGet r "mimeType" = some (Json.str "text/html"))
    (hname : jsGet r "name" = some (Json.str nm))
    (htext : jsGet r "text" = some (Json.str txt))
    (hne : txt ≠ "") :
    detectMCPUIResource (some s) = ⟨true, some r⟩ ∧
    ((detectMCPUIResource (some s)).resource.bind (fun x => jsGet x "uri")
        = some (Json.str u) ∧
     (detectMCPUIResource (some s)).resource.bind (fun x => jsGet x "name")
        = some (Json.str nm) ∧
     (detectMCPUIResource (some s)).resource.bind (fun x => jsGet x "mimeType")
        = some (Json.str "text/html") ∧
     (detectMCPUIResource (some s)).resource.bind (fun x => jsGet x "text")
        = some (Json.str txt)) := by
  have hcond : typeIsResource parsed ∧ uriIsReserved parsed ∧
      mimeTypeIsHtml parsed ∧ textIsTruthy parsed := by
    refine ⟨?_, ?_, ?_, ?_⟩
    · simp [typeIsResource, hty]
    · simp [uriIsReserved, hres, huri, hscheme]
    · simp [mimeTypeIsHtml, hres, hmime]
    · simp [textIsTruthy, hres, htext, jsTruthy, hne]
  have hmain : detectMCPUIResource (some s) = ⟨true, some r⟩ := by
    rw [detect_parse_some hp, if_pos hcond, hres]
  refine ⟨hmain, ?_, ?_, ?_, ?_⟩ <;> rw [hmain] <;> simp [huri, hname, hmime, htext]

/-- Witness for C2, at the spec's concrete scenario
`ui://form/1` / `Form` / `text/html` / `<form></form>`. -/
theorem detect_direct_envelope_byte_exact_witness :
    detectMCPUIResource (some directEnvelopeForm1) =
      ⟨true, some (Json.obj [("uri", Json.str "ui://form/1"), ("name", Json.str "Form"),
        ("mimeType", Json.str "text/html"), ("text", Json.str "<form></form>")])⟩ :=
  (detect_direct_envelope_byte_exact directEnvelopeForm1
    (Json.obj [("type", Json.str "resource"),
      ("resource", Json.obj [("uri", Json.str "ui://form/1"), ("name", Json.str "Form"),
        ("mimeType", Json.str "text/html"), ("text", Json.str "<form></form>")])])
    (Json.obj [("uri", Json.str "ui://form/1"), ("name", Json.str "Form"),
      ("mimeType", Json.str "text/html"), ("text", Json.str "<form></form>")])
    "ui://form/1" "Form" "<form></form>"
    rfl rfl rfl rfl rfl rfl rfl rfl (by decide)).1

/-! ## C3: detect is pure and total, returning no-match on any failure -/

/-- A well-formed direct envelope whose `uri` does not carry the reserved
`ui://` scheme; used to witness the mismatch branch of C3. -/
def nonReservedEnvelope : String :=
  "\x7b\"type\":\"resource\",\"resource\":\x7b\"uri\":\"https://x/1\",\"name\":\"X\",\"mimeType\":\"text/html\",\"text\":\"<p>x</p>\"\x7d\x7d"

/-- C3 (confirmed).  `detectMCPUIResource` is a total function; an input
that is not valid JSON yields no match, a valid-JSON input whose
`resource.uri` is not a reserved-scheme string yields no match, a missing
output yields no match, and whenever a resource is returned it is a full
valid UIResource (reserved-scheme string `uri`, supported `mimeType`,
truthy `text`) — never a partial one. -/
theorem detect_total_no_match (s : String) :
    (JSON.parse s = none → detectMCPUIResource (some s) = ⟨false, none⟩) ∧
    (∀ j, JSON.parse s = some j → uriIsReserved j = false →
      detectMCPUIResource (some s) = ⟨false, none⟩) ∧
    (∀ r, (detectMCPUIResource (some s)).resource = some r →
      (detectMCPUIResource (some s)).isMCPResource = true ∧
      (∃ u, jsGet r "uri" = some (Json.str u) ∧ strStartsWith u "ui://" = true) ∧
      jsGet r "mimeType" = some (Json.str "text/html") ∧
      (∃ t, jsGet r "text" = some t ∧ jsTruthy t = true)) ∧
    detectMCPUIResource none = ⟨false, none⟩ := by
  refine ⟨fun hp => detect_parse_none hp, ?_, ?_, rfl⟩
  · intro j hp huri
    rw [detect_parse_some hp]
    rw [if_neg]
    intro hcond
    rw [hcond.2.1] at huri
    exact Bool.noConfusion huri
  · intro r hr
    match hp : JSON.parse s with
    | none =>
      rw [detect_parse_none hp] at hr
      exact Option.noConfusion hr
    | some j =>
      rw [detect_parse_some hp] at hr ⊢
      by_cases hcond : typeIsResource j ∧ uriIsReserved j ∧ mimeTypeIsHtml j ∧ textIsTruthy j
      · rw [if_pos hcond] at hr ⊢
        have hjr : jsGet j "resource" = some r := hr
        refine ⟨rfl, ?_, ?_, ?_⟩
        · have := hcond.2.1
          unfold uriIsReserved at this
          rw [hjr, Option.some_bind'] at this
          match hu : jsGet r "uri" with
          | some (Json.str u) =>
            rw [hu] at this
            exact ⟨u, rfl, this⟩
          | none => rw [hu] at this; exact Bool.noConfusion this
          | some Json.null => rw [hu] at this; exact Bool.noConfusion this
          | some (Json.bool b) => rw [hu] at this; exact Bool.noConfusion this
          | some (Json.num q) => rw [hu] at this; exact Bool.noConfusion this
          | some (Json.arr xs) => rw [hu] at this; exact Bool.noConfusion this
          | some (Json.obj fs) => rw [hu] at this; exact Bool.noConfusion this
        · have := hcond.2.2.1
          unfold mimeTypeIsHtml at this
          rw [hjr, Option.some_bind'] at this
          match hm : jsGet r "mimeType" with
          | some (Json.str m) =>
            rw [hm] at this
            have : m = "text/html" := by simpa using this
            rw [this]
          | none => rw [hm] at this; exact Bool.noConfusion this
          | some Json.null => rw [hm] at this; exact Bool.noConfusion this
          | some (Json.bool b) => rw [hm] at this; exact Bool.noConfusion this
          | some (Json.num q) => rw [hm] at this; exact Bool.noConfusion this
          | some (Json.arr xs) => rw [hm] at this; exact Bool.noConfusion this
          | some (Json.obj fs) => rw [hm] at this; exact Bool.noConfusion this
        · have := hcond.2.2.2
          unfold textIsTruthy at this
          rw [hjr, Option.some_bind'] at this
          match ht : jsGet r "text" with
          | some t => rw [ht] at this; exact ⟨t, rfl, this⟩
          | none => rw [ht] at this; exact Bool.noConfusion this
      · rw [if_neg hcond] at hr
        exact Option.noConfusion hr

/-- Witness for C3: no match on a string that is not valid JSON, and no
match on a well-formed envelope whose `uri` scheme is not reserved. -/
theorem detect_total_no_match_witness :
    detectMCPUIResource (some "not json") = ⟨false, none⟩ ∧
    detectMCPUIResource (some nonReservedEnvelope) = ⟨false, none⟩ :=
  ⟨(detect_total_no_match "not json").1 rfl,
   (detect_total_no_match nonReservedEnvelope).2.1
     (Json.obj [("type", Json.str "resource"),
       ("resource", Json.obj [("uri", Json.str "https://x/1"), ("name", Json.str "X"),
         ("mimeType", Json.str "text/html"), ("text", Json.str "<p>x</p>")])])
     rfl rfl⟩

/-! ## C1: envelope-shape invariance fails — only direct envelopes match -/

/-- Counterexample to C1.  The direct envelope for `ui://x/2` is detected,
but the wrapped-text envelope carrying its serialization in the `text`
field and the one-element content-array envelope containing it both return
no match, so the three shapes do not yield the same UIResource. -/
theorem detect_envelope_shape_counterexample :
    (detectMCPUIResource (some directEnvelopeX2)).isMCPResource = true ∧
    detectMCPUIResource (some (wrapTextEnvelope directEnvelopeX2)) = ⟨false, none⟩ ∧
    detectMCPUIResource (some (wrapArrayEnvelope directEnvelopeX2)) = ⟨false, none⟩ ∧
    detectMCPUIResource (some (wrapTextEnvelope directEnvelopeX2)) ≠
      detectMCPUIResource (some directEnvelopeX2) := by
  refine ⟨rfl, rfl, rfl, ?_⟩
  intro h
  have h1 : (false : Bool) = true := congrArg DetectResult.isMCPResource h
  exact Bool.noConfusion h1

/-- C1 as amended.  `detectMCPUIResource` recognizes only the direct
envelope: any input parsing to an object whose `type` field is `"text"`
(the wrapped-text shape), and any input parsing to an array (the
content-array shape), returns no match rather than the inner resource. -/
theorem detect_rejects_nondirect_envelopes (s : String) (j : Json)
    (hp : JSON.parse s = some j) :
    (jsGet j "type" = some (Json.str "text") →
      detectMCPUIResource (some s) = ⟨false, none⟩) ∧
    (∀ xs, j = Json.arr xs → detectMCPUIResource (some s) = ⟨false, none⟩) := by
  constructor
  · intro hty
    rw [detect_parse_some hp, if_neg]
    intro hcond
    have := hcond.1
    unfold typeIsResource at this
    rw [hty] at this
    simp at this
  · intro xs hxs
    rw [detect_parse_some hp, if_neg]
    intro hcond
    have := hcond.1
    unfold typeIsResource at this
    rw [hxs] at this
    exact Bool.noConfusion (show false = true from this)

/-- Witness for the amended C1: the wrapped-text and content-array
envelopes around the `ui://x/2` direct envelope are both rejected. -/
theorem detect_rejects_nondirect_envelopes_witness :
    detectMCPUIResource (some (wrapTextEnvelope directEnvelopeX2)) = ⟨false, none⟩ ∧
    detectMCPUIResource (some (wrapArrayEnvelope directEnvelopeX2)) = ⟨false, none⟩ :=
  ⟨(detect_rejects_nondirect_envelopes (wrapTextEnvelope directEnvelopeX2)
      (Json.obj [("type", Json.str "text"), ("text", Json.str directEnvelopeX2)])
      rfl).1 rfl,
   (detect_rejects_nondirect_envelopes (wrapArrayEnvelope directEnvelopeX2)
      (Json.arr [Json.obj [("type", Json.str "resource"),
        ("resource", Json.obj [("uri", Json.str "ui://x/2"), ("name", Json.str "X"),
          ("mimeType", Json.str "text/html"), ("text", Json.str "<p>x</p>")])]])
      rfl).2 _ rfl⟩

/-! ## C4: store add is last-writer-wins; first-writer-wins only via the
guard at the call site -/

/-- `Map.get` after `Map.set` of the same key finds the new value. -/
lemma mapGet_mapSet_self (m : ResourceMap) (k : String) (v : MCPResource) :
    mapGet (mapSet m k v) k = some v := by
  induction m with
  | nil => simp [mapSet, mapGet]
  | cons p rest ih =>
    by_cases hk : p.1 = k
    · simp [mapSet, hk, mapGet]
    · simp [mapSet, hk, mapGet, ih]

/-- Counterexample to C4 as stated: `addResource` overwrites.  After
`add(r1)` then `add(r2)` with equal `uri`s, `get` returns the
second-added value, not the first — the second add is not a no-op. -/
theorem addResource_last_writer_wins_counterexample :
    getResource (addResource (addResource []
        ⟨"ui://a", "A", "text/html", "one"⟩) ⟨"ui://a", "A", "text/html", "two"⟩)
      "ui://a" = some ⟨"ui://a", "A", "text/html", "two"⟩ ∧
    some (⟨"ui://a", "A", "text/html", "two"⟩ : MCPResource) ≠
      some (⟨"ui://a", "A", "text/html", "one"⟩ : MCPResource) := by
  exact ⟨rfl, by decide⟩

/-- C4 as amended.  The raw `addResource` is last-writer-wins (`Map.set`
overwrites); first-writer-wins idempotence holds for the guarded add
performed by `ToolCallInfo` (`storeDetectedResource`), which calls
`addResource` only when `getResource(uri)` finds nothing: a second
guarded add with the same `uri` is a no-op, and when the `uri` was not
yet present `get` afterwards returns the first-added value unchanged. -/
theorem guarded_add_first_writer_wins (m : ResourceMap) (r1 r2 : MCPResource)
    (huri : r1.uri = r2.uri) :
    storeDetectedResource (storeDetectedResource m r1) r2 = storeDetectedResource m r1 ∧
    (getResource m r1.uri = none →
      getResource (storeDetectedResource m r1) r1.uri = some r1) := by
  have hafter : ∃ v, getResource (storeDetectedResource m r1) r1.uri = some v ∧
      (getResource m r1.uri = none → v = r1) := by
    unfold storeDetectedResource
    match hg : getResource m r1.uri with
    | some v => exact ⟨v, hg, fun h => Option.noConfusion h⟩
    | none =>
      refine ⟨r1, ?_, fun _ => rfl⟩
      exact mapGet_mapSet_self m r1.uri r1
  obtain ⟨v, hv, hv1⟩ := hafter
  constructor
  · show (match getResource (storeDetectedResource m r1) r2.uri with
      | some _ => storeDetectedResource m r1
      | none => addResource (storeDetectedResource m r1) r2) = storeDetectedResource m r1
    rw [← huri, hv]
  · intro hnone
    rw [hv, hv1 hnone]

/-- Witness for the amended C4 at a concrete store: an empty map, then
two adds of resources sharing `uri` `ui://a`. -/
theorem guarded_add_first_writer_wins_witness :
    storeDetectedResource (storeDetectedResource []
        ⟨"ui://a", "A", "text/html", "one"⟩) ⟨"ui://a", "A", "text/html", "two"⟩ =
      storeDetectedResource [] ⟨"ui://a", "A", "text/html", "one"⟩ ∧
    getResource (storeDetectedResource [] ⟨"ui://a", "A", "text/html", "one"⟩) "ui://a" =
      some ⟨"ui://a", "A", "text/html", "one"⟩ :=
  ⟨(guarded_add_first_writer_wins [] ⟨"ui://a", "A", "text/html", "one"⟩
      ⟨"ui://a", "A", "text/html", "two"⟩ rfl).1,
   (guarded_add_first_writer_wins [] ⟨"ui://a", "A", "text/html", "one"⟩
      ⟨"ui://a", "A", "text/html", "two"⟩ rfl).2 rfl⟩

/-! ## C5: committed height is monotone and order-independent -/

/-- `applyHeight` never decreases the committed height. -/
lemma applyHeight_le (c h : ℚ) : c ≤ applyHeight c h := by
  unfold applyHeight
  dsimp only
  split
  · exact le_of_lt (by assumption)
  · exact le_rfl

/-- A sample leaves the committed height unchanged. -/
lemma scheduleHeightCommit_committed (s : HState) (h : ℚ) :
    (scheduleHeightCommit s h).committed = s.committed := rfl

/-- The frame commit never decreases the committed height. -/
lemma rafCommit_committed_le (s : HState) : s.committed ≤ (rafCommit s).committed := by
  unfold rafCommit
  split
  · match s.pending with
    | some ph => exact applyHeight_le s.committed ph
    | none => exact le_rfl
  · exact le_rfl

/-- Every negotiator step is non-decreasing on the committed height. -/
lemma hstep_committed_le (s : HState) (e : HEvent) :
    s.committed ≤ (hstep s e).committed := by
  cases e with
  | sample h => exact le_of_eq (scheduleHeightCommit_committed s h).symm
  | frame => exact rafCommit_committed_le s

/-- Folding a non-empty batch of samples max-folds them into the pending
candidate and leaves the rest of the state as after one sample. -/
lemma foldl_schedule_eq (l : List ℚ) (s : HState) :
    l.foldl scheduleHeightCommit s =
      if l = [] then s else
        { s with pending := some (l.foldl max (s.pending.getD 0)), rafScheduled := true } := by
  induction l generalizing s with
  | nil => rfl
  | cons h t ih =>
    rw [List.foldl_cons, ih]
    by_cases ht : t = []
    · subst ht
      simp [scheduleHeightCommit]
    · simp only [ht, if_neg (List.cons_ne_nil h t), if_neg ht]
      simp [scheduleHeightCommit]

/-- Folding `max` over a batch is invariant under permutation. -/
lemma foldl_max_perm {l1 l2 : List ℚ} (p : l1.Perm l2) :
    ∀ d : ℚ, l1.foldl max d = l2.foldl max d := by
  induction p with
  | nil => intro d; rfl
  | cons x _ ih => intro d; simpa using ih (max d x)
  | swap x y l => intro d; simp only [List.foldl_cons]; rw [sup_right_comm]
  | trans _ _ ih1 ih2 => intro d; exact (ih1 d).trans (ih2 d)

/-- C5 (confirmed).  Within one render instance's lifetime the committed
displayed height is non-decreasing at every step (any sample, any frame
commit), and the height committed after a batch of samples is invariant
under their arrival order, because every sample is max-folded into the
pending candidate. -/
theorem currentHeight_monotone_order_independent :
    (∀ (s : HState) (e : HEvent), s.committed ≤ (hstep s e).committed) ∧
    (∀ (s : HState) (l1 l2 : List ℚ), l1.Perm l2 → negotiate s l1 = negotiate s l2) := by
  refine ⟨hstep_committed_le, ?_⟩
  intro s l1 l2 p
  unfold negotiate
  rw [foldl_schedule_eq, foldl_schedule_eq]
  by_cases h1 : l1 = []
  · have h2 : l2 = [] := by
      rw [h1] at p
      exact p.symm.eq_nil
    rw [h1, h2]
  · have h2 : l2 ≠ [] := by
      intro h2
      rw [h2] at p
      exact h1 p.eq_nil
    rw [if_neg h1, if_neg h2, foldl_max_perm p]

/-- Witness for C5: the spec's concrete scenario — samples 200 then 150
commit to 200 and reordering them commits the same height. -/
theorem currentHeight_monotone_order_independent_witness :
    negotiate initialHState [200, 150] = negotiate initialHState [150, 200] ∧
    (negotiate initialHState [200, 150]).committed = 200 ∧
    initialHState.committed ≤ (hstep initialHState (HEvent.sample 150)).committed :=
  ⟨currentHeight_monotone_order_independent.2 initialHState [200, 150] [150, 200]
      (List.Perm.swap 150 200 []),
   rfl,
   currentHeight_monotone_order_independent.1 initialHState (HEvent.sample 150)⟩

/-! ## C6: remounting a different resource does not reset the committed
height -/

/-- Counterexample to C6.  Switching the `[resource]` dependency runs only
the effect cleanup on the reused surface; a committed height of 600 from
the previous resource survives it — it is not reset to the placeholder
minimum 150 before the new resource's samples are folded in. -/
theorem remount_keeps_committed_counterexample :
    (effectCleanup ⟨600, none, false, true⟩).committed = 600 ∧
    ((600 : ℚ) ≠ 150) := by
  exact ⟨rfl, by decide⟩

/-- C6 as amended.  When a different resource identity is mounted into a
reused surface, the cleanup resets the pending height candidate and
cancels the scheduled commit, but the committed displayed height is kept
at the previous resource's value; the placeholder minimum 150 applies
only when the render instance itself is first created. -/
theorem remount_resets_candidate_not_committed :
    initialHState.committed = 150 ∧
    (∀ s : HState,
      (effectCleanup s).committed = s.committed ∧
      (effectCleanup s).pending = none ∧
      (effectCleanup s).rafScheduled = false ∧
      (effectCleanup s).isLoaded = s.isLoaded) :=
  ⟨rfl, fun _ => ⟨rfl, rfl, rfl, rfl⟩⟩

/-! ## C7: message filtering — untracked sources are dropped only when
some iframe is tracked -/

/-- Counterexample to C7.  With no tracked iframes, a height-report
message from an untracked source is processed: it folds a 300 sample into
the pending candidate, so an untracked origin does produce an effect. -/
theorem untracked_message_accepted_counterexample :
    (([] : List Nat).contains 5 = false) ∧
    handleMessage [] initialHState
        ⟨5, Json.obj [("type", Json.str "ui-size-change"),
          ("payload", Json.obj [("height", Json.num 300)])]⟩ =
      ⟨150, some 300, true, false⟩ ∧
    (⟨150, some 300, true, false⟩ : HState) ≠ initialHState := by
  exact ⟨rfl, rfl, by decide⟩

/-- C7 as amended.  A message is dropped when its source is untracked and
at least one iframe is tracked; when the tracked list is empty, early
messages are accepted from any source.  All three height-report aliases
are handled identically (the result does not depend on which alias was
used), and a message whose declared `type` is missing, non-string, or not
a recognized alias leaves the state unchanged and invokes nothing. -/
theorem message_filtering_amended :
    (∀ (tracked : List Nat) (s : HState) (m : UIMessage),
      tracked ≠ [] → tracked.contains m.source = false →
      handleMessage tracked s m = s) ∧
    (∀ (tracked : List Nat) (s : HState) (m : UIMessage) (t : String),
      jsGet m.data "type" = some (Json.str t) → isHeightUpdateType t = true →
      handleMessage tracked s m =
        if ¬ tracked.contains m.source ∧ tracked ≠ [] then s
        else
          match extractHeight m.data with
          | some q => scheduleHeightCommit s q
          | none => s) ∧
    (∀ (tracked : List Nat) (s : HState) (m : UIMessage) (t : String),
      jsGet m.data "type" = some (Json.str t) → isHeightUpdateType t = false →
      handleMessage tracked s m = s) ∧
    (∀ (tracked : List Nat) (s : HState) (m : UIMessage),
      jsGet m.data "type" = none → handleMessage tracked s m = s) := by
  refine ⟨?_, ?_, ?_, ?_⟩
  · intro tracked s m hne hc
    unfold handleMessage
    rw [if_pos]
    refine ⟨?_, hne⟩
    rw [hc]
    exact Bool.false_ne_true
  · intro tracked s m t hty halias
    unfold handleMessage
    by_cases hdrop : ¬ tracked.contains m.source ∧ tracked ≠ []
    · rw [if_pos hdrop, if_pos hdrop]
    · rw [if_neg hdrop, if_neg hdrop, hty]
      simp [halias]
  · intro tracked s m t hty halias
    unfold handleMessage
    by_cases hdrop : ¬ tracked.contains m.source ∧ tracked ≠ []
    · rw [if_pos hdrop]
    · rw [if_neg hdrop, hty]
      simp [halias]
  · intro tracked s m hty
    unfold handleMessage
    by_cases hdrop : ¬ tracked.contains m.source ∧ tracked ≠ []
    · rw [if_pos hdrop]
    · rw [if_neg hdrop, hty]

/-- Witness for the amended C7: with iframe 3 tracked, a message from
source 5 is dropped; an unrecognized type is dropped; and the
`mcp-ui:size` alias behaves as the common height path. -/
theorem message_filtering_amended_witness :
    handleMessage [3] initialHState
        ⟨5, Json.obj [("type", Json.str "ui-size-change"),
          ("payload", Json.obj [("height", Json.num 300)])]⟩ = initialHState ∧
    handleMessage [3] initialHState
        ⟨3, Json.obj [("type", Json.str "mcp-ui-action")]⟩ = initialHState ∧
    handleMessage [3] initialHState
        ⟨3, Json.obj [("type", Json.str "mcp-ui:size"),
          ("payload", Json.obj [("height", Json.num 300)])]⟩ =
      scheduleHeightCommit initialHState 300 :=
  ⟨message_filtering_amended.1 [3] initialHState _ (by decide) (by decide),
   message_filtering_amended.2.2.1 [3] initialHState _ "mcp-ui-action" rfl (by decide),
   by
    rw [message_filtering_amended.2.1 [3] initialHState
      ⟨3, Json.obj [("type", Json.str "mcp-ui:size"),
        ("payload", Json.obj [("height", Json.num 300)])]⟩ "mcp-ui:size" rfl (by decide)]
    rfl⟩

/-! ## C8: injection-failure fallback prefers a declared height over 600 -/

/-- Counterexample to C8 as stated.  When the resource declares
`height: 400`, the probe-injection `catch` branch sets the displayed
height to 400, not to the fixed default 600. -/
theorem fallback_not_fixed_600_counterexample :
    (attemptInjectionCatch (Json.obj [("height", Json.num 400)]) initialHState).committed
      = 400 ∧
    ((400 : ℚ) ≠ 600) := by
  exact ⟨rfl, by decide⟩

/-- C8 as amended.  On probe-injection failure the Sandbox Host recovers
silently: it sets the displayed height to `resource.height` if truthy,
else to `resource.metadata.height` if truthy, else to the fixed default
600; nothing else of the instance state is touched (the instance is not
torn down). -/
theorem injection_failure_fallback :
    (∀ (r : Json) (s : HState),
      jsTruthy ((jsGet r "height").getD Json.null) = false →
      jsTruthy (((jsGet r "metadata").bind (fun md => jsGet md "height")).getD Json.null)
        = false →
      attemptInjectionCatch r s = { s with committed := 600 }) ∧
    (∀ (r : Json) (s : HState) (q : ℚ),
      jsGet r "height" = some (Json.num q) → q ≠ 0 →
      attemptInjectionCatch r s = { s with committed := q }) ∧
    (∀ (r : Json) (s : HState),
      (attemptInjectionCatch r s).pending = s.pending ∧
      (attemptInjectionCatch r s).rafScheduled = s.rafScheduled ∧
      (attemptInjectionCatch r s).isLoaded = s.isLoaded) := by
  refine ⟨?_, ?_, ?_⟩
  · intro r s h1 h2
    unfold attemptInjectionCatch fallbackHeight
    rw [if_neg (by rw [h1]; exact Bool.false_ne_true),
        if_neg (by rw [h2]; exact Bool.false_ne_true)]
  · intro r s q hq hne
    unfold attemptInjectionCatch fallbackHeight
    rw [hq]
    rw [if_pos (by simp [jsTruthy, hne])]
    rfl
  · intro r s
    unfold attemptInjectionCatch
    match fallbackHeight r with
    | Json.null => exact ⟨rfl, rfl, rfl⟩
    | Json.bool b => exact ⟨rfl, rfl, rfl⟩
    | Json.num q => exact ⟨rfl, rfl, rfl⟩
    | Json.str t => exact ⟨rfl, rfl, rfl⟩
    | Json.arr xs => exact ⟨rfl, rfl, rfl⟩
    | Json.obj fs => exact ⟨rfl, rfl, rfl⟩

/-- Witness for the amended C8: a resource with no declared height falls
back to 600; one declaring `height: 400` gets 400. -/
theorem injection_failure_fallback_witness :
    attemptInjectionCatch (Json.obj []) initialHState =
      { initialHState with committed := 600 } ∧
    attemptInjectionCatch (Json.obj [("height", Json.num 400)]) initialHState =
      { initialHState with committed := 400 } :=
  ⟨injection_failure_fallback.1 (Json.obj []) initialHState rfl rfl,
   injection_failure_fallback.2.1 (Json.obj [("height", Json.num 400)]) initialHState 400
     rfl (by decide)⟩

/-! ## C10: the failure-path assignment bypasses the max-guard and is the
only operation that can shrink the displayed height -/

/-- The message handler never decreases the committed height. -/
lemma handleMessage_committed_le (tracked : List Nat) (s : HState) (m : UIMessage) :
    s.committed ≤ (handleMessage tracked s m).committed := by
  unfold handleMessage
  split
  · exact le_rfl
  · split
    · split
      · split
        · exact le_rfl
        · exact le_rfl
      · exact le_rfl
    · exact le_rfl

/-- C10 (confirmed).  The probe-injection-failure path assigns the
displayed height directly, preferring a resource-declared height
(`resource.height`, else `resource.metadata.height`) over the 600
default, without the strictly-increasing max-guard of `applyHeight`:
from a committed height of 800 the assignment shrinks it to 600.  Every
other operation — any negotiator step, any handled message, the remount
cleanup — never decreases the committed height. -/
theorem injection_failure_only_shrinking_op :
    (∀ (r : Json) (s : HState) (q : ℚ),
      jsGet r "height" = some (Json.num q) → q ≠ 0 →
      (attemptInjectionCatch r s).committed = q) ∧
    (∀ (r : Json) (s : HState) (q : ℚ),
      jsTruthy ((jsGet r "height").getD Json.null) = false →
      (jsGet r "metadata").bind (fun md => jsGet md "height") = some (Json.num q) →
      q ≠ 0 →
      (attemptInjectionCatch r s).committed = q) ∧
    ((attemptInjectionCatch (Json.obj []) ⟨800, none, false, true⟩).committed = 600 ∧
      ((600 : ℚ) < 800)) ∧
    (∀ (s : HState) (e : HEvent), s.committed ≤ (hstep s e).committed) ∧
    (∀ (tracked : List Nat) (s : HState) (m : UIMessage),
      s.committed ≤ (handleMessage tracked s m).committed) ∧
    (∀ s : HState, (effectCleanup s).committed = s.committed) := by
  refine ⟨?_, ?_, ⟨rfl, by norm_num⟩, hstep_committed_le, handleMessage_committed_le,
    fun _ => rfl⟩
  · intro r s q hq hne
    unfold attemptInjectionCatch fallbackHeight
    rw [hq]
    rw [if_pos (by simp [jsTruthy, hne])]
    rfl
  · intro r s q h1 hq hne
    unfold attemptInjectionCatch fallbackHeight
    rw [if_neg (by rw [h1]; exact Bool.false_ne_true), hq]
    rw [if_pos (by simp [jsTruthy, hne])]
    rfl

/-- Witness for C10: a declared `height: 400` is assigned over the 600
default even though the prior committed height was 800 — a strict
decrease. -/
theorem injection_failure_only_shrinking_op_witness :
    (attemptInjectionCatch (Json.obj [("height", Json.num 400)])
        ⟨800, none, false, true⟩).committed = 400 ∧
    initialHState.committed ≤ (hstep initialHState HEvent.frame).committed :=
  ⟨injection_failure_only_shrinking_op.1 (Json.obj [("height", Json.num 400)])
      ⟨800, none, false, true⟩ 400 rfl (by decide),
   injection_failure_only_shrinking_op.2.2.2.1 initialHState HEvent.frame⟩

/-! ## C9: unmount leaks the delayed timers and load listeners -/

/-- C9 (the code contradicts it).  The mount effect's cleanup releases
the message listener, the wrapper `MutationObserver`, the pending
animation frame and the per-iframe `ResizeObserver`s, but never clears
the 500 ms delayed iframe check, the `settleProbe` frame/timeout chains,
or the per-iframe `load` listeners (the remover `injectHeightDetector`
returns is discarded by every caller) — so callbacks registered during
mount can still fire after unmount completes. -/
theorem unmount_leaks_registered_callbacks :
    leakedAfterUnmount =
      [Registration.iframeLoadListener, Registration.delayedIframeCheck,
       Registration.settleProbeTimers] ∧
    Registration.delayedIframeCheck ∈ leakedAfterUnmount ∧
    leakedAfterUnmount ≠ [] := by
  exact ⟨rfl, by decide, by decide⟩
